import Mathlib

/-!
Shallow embedding of the GEDCOM conversion pipeline of `src/app.tsx`
(topola-viewer).  TypeScript/JavaScript values are modelled as follows:

* optional fields become `Option`;
* JavaScript numbers used here are integers, so they become `Int`;
  numeric truthiness (`0` is falsy) is modelled explicitly where the
  source tests a number with `!x` or `x && ...`;
* JavaScript strings become `String`; `a < b` on strings is the
  lexicographic order, which is Lean's `String` order;
* arrays become `List`; where object identity and in-place mutation of
  arrays matter (`Array.prototype.sort` sorts in place and returns the
  same array object) a store-passing model with explicit references is
  used.

External collaborators (`parse-gedcom`'s `parse`, topola's
`gedcomEntriesToJson`) are not part of the repository; their outputs are
taken as parameters of the embedded functions.
-/

/-- A date as it appears in topola chart data: `{year?, month?, day?}`.
All fields are optional JavaScript numbers. -/
structure JsDate where
  year : Option Int
  month : Option Int
  day : Option Int
deriving DecidableEq, Repr

/-- A date range `{from?, to?}`; the source only reads `from`
(`fromDate` here, since `from` is a Lean keyword). -/
structure JsDateRange where
  fromDate : Option JsDate
  toDate : Option JsDate
deriving DecidableEq, Repr

/-- Birth event data: `{date?, dateRange?}` (other event fields are not
read by the embedded code). -/
structure JsonBirth where
  date : Option JsDate
  dateRange : Option JsDateRange
deriving DecidableEq, Repr

/-- An image `{url, title?}`. -/
structure JsonImage where
  url : String
  title : Option String
deriving DecidableEq, Repr

/-- An individual in chart form: `{id, birth?, images?}` (the other
topola fields are not read by the embedded code). -/
structure JsonIndi where
  id : String
  birth : Option JsonBirth
  images : Option (List JsonImage)
deriving DecidableEq, Repr

/-- A family in chart form: `{id, children?}` (children are individual
ids; other topola fields are not read by the embedded code). -/
structure JsonFam where
  id : String
  children : Option (List String)
deriving DecidableEq, Repr

/-- Chart data: ordered sequences of individuals and families. -/
structure JsonGedcomData where
  indis : List JsonIndi
  fams : List JsonFam
deriving DecidableEq, Repr

/-- `strcmp` from the source: `-1` if `a < b`, `1` if `a > b`
(i.e. `b < a`), else `0`.  JavaScript compares strings lexicographically
by code unit; this is the lexicographic order on the character lists,
written on `String.data` so that it evaluates by kernel reduction. -/
def strcmp (a b : String) : Int :=
  if a.data < b.data then -1 else if b.data < a.data then 1 else 0

theorem charList_lt_irrefl (l : List Char) : ¬l < l := by
  induction l with
  | nil => intro h; cases h
  | cons a as ih =>
    intro h
    cases h with
    | cons h => exact ih h
    | rel h => exact lt_irrefl a h

/-- `strcmp` agrees with the three-way comparison in Lean's
lexicographic order on `String`. -/
theorem strcmp_eq_order (a b : String) :
    strcmp a b = if a < b then -1 else if b < a then 1 else 0 := by
  have h1 : (a < b) ↔ a.data < b.data := String.lt_iff_toList_lt
  have h2 : (b < a) ↔ b.data < a.data := String.lt_iff_toList_lt
  simp only [strcmp, h1, h2]

/-- The id-to-individual lookup built by `birthDatesComparator`.
The source writes `idToIndiMap[indi.id] = indi` in a `forEach`, so a
later individual with the same id overwrites an earlier one; lookup of
an absent id yields `undefined`. -/
def lookupIndi (gedcom : JsonGedcomData) (id : String) : Option JsonIndi :=
  gedcom.indis.reverse.find? (fun indi => indi.id == id)

/-- The date resolved for one id inside the comparator:
`indi && indi.birth`, then `birth.date || (birth.dateRange && birth.dateRange.from)`.
Objects are always truthy, so `birth.date` wins whenever it is present. -/
def resolveDate (gedcom : JsonGedcomData) (id : String) : Option JsDate :=
  match lookupIndi gedcom id with
  | none => none
  | some indi =>
    match indi.birth with
    | none => none
    | some birth =>
      match birth.date with
      | some d => some d
      | none =>
        match birth.dateRange with
        | none => none
        | some range => range.fromDate

/-- The comparator returned by `birthDatesComparator(gedcom)`.  A date
field guarded by `!x` or `x && ...` in the source is usable only when it
is present AND nonzero (JavaScript numeric truthiness). -/
def birthDatesComparator (gedcom : JsonGedcomData) : String → String → Int :=
  fun indiId1 indiId2 =>
    let idComparison := strcmp indiId1 indiId2
    match resolveDate gedcom indiId1, resolveDate gedcom indiId2 with
    | some date1, some date2 =>
      match date1.year, date2.year with
      | some y1, some y2 =>
        if y1 = 0 ∨ y2 = 0 then idComparison
        else if y1 ≠ y2 then y1 - y2
        else
          match date1.month, date2.month with
          | some m1, some m2 =>
            if m1 = 0 ∨ m2 = 0 then idComparison
            else if m1 ≠ m2 then m1 - m2
            else
              match date1.day, date2.day with
              | some d1, some d2 =>
                if d1 ≠ 0 ∧ d2 ≠ 0 ∧ d1 ≠ d2 then m1 - m2 else idComparison
              | _, _ => idComparison
          | _, _ => idComparison
      | _, _ => idComparison
    | _, _ => idComparison

theorem strcmp_self (a : String) : strcmp a a = 0 := by
  simp [strcmp, charList_lt_irrefl]

/-- C10: the comparator built by `birthDatesComparator` is reflexive:
comparing an id with itself returns 0 on every chart data — every
numeric branch evaluates to `x - x = 0` and the string fallback of an id
against itself is 0. -/
theorem birthDatesComparator_refl (gedcom : JsonGedcomData) (id : String) :
    birthDatesComparator gedcom id id = 0 := by
  unfold birthDatesComparator
  cases hd : resolveDate gedcom id with
  | none => simp [strcmp_self]
  | some d =>
    cases hy : d.year with
    | none => simp [strcmp_self, hy]
    | some y =>
      cases hm : d.month with
      | none => simp [strcmp_self, hy, hm]
      | some m =>
        cases hday : d.day with
        | none => simp [strcmp_self, hy, hm, hday]
        | some dd => by_cases h : y = 0 <;> by_cases h2 : m = 0 <;>
            simp [strcmp_self, hy, hm, hday, h, h2]

theorem resolveDate_of_lookup_none (gedcom : JsonGedcomData) (id : String)
    (h : lookupIndi gedcom id = none) : resolveDate gedcom id = none := by
  simp [resolveDate, h]

/-- C3: for any chart data and two ids whose resolved birth dates both
carry a year, a month and a day (present and nonzero, since the source
tests numeric fields by truthiness), with equal years, equal months and
differing days, the comparator returns 0: the month difference is
returned again in place of the day difference, so the day is never the
deciding factor. -/
theorem birthDatesComparator_day_tie_quirk (gedcom : JsonGedcomData)
    (id1 id2 : String) (d1 d2 : JsDate) (y m dd1 dd2 : Int)
    (h1 : resolveDate gedcom id1 = some d1)
    (h2 : resolveDate gedcom id2 = some d2)
    (hy1 : d1.year = some y) (hy2 : d2.year = some y) (hy : y ≠ 0)
    (hm1 : d1.month = some m) (hm2 : d2.month = some m) (hm : m ≠ 0)
    (hd1 : d1.day = some dd1) (hd2 : d2.day = some dd2)
    (hdd1 : dd1 ≠ 0) (hdd2 : dd2 ≠ 0) (hne : dd1 ≠ dd2) :
    birthDatesComparator gedcom id1 id2 = 0 := by
  simp [birthDatesComparator, h1, h2, hy1, hy2, hy, hm1, hm2, hm,
    hd1, hd2, hdd1, hdd2, hne]

def dateW1 : JsDate := ⟨some 1980, some 5, some 10⟩

def dateW2 : JsDate := ⟨some 1980, some 5, some 20⟩

def gedcomW : JsonGedcomData :=
  ⟨[⟨"I1", some ⟨some dateW1, none⟩, none⟩,
    ⟨"I2", some ⟨some dateW2, none⟩, none⟩], []⟩

theorem birthDatesComparator_day_tie_quirk_witness :
    resolveDate gedcomW "I1" = some dateW1 ∧
    resolveDate gedcomW "I2" = some dateW2 ∧
    birthDatesComparator gedcomW "I1" "I2" = 0 :=
  ⟨by decide, by decide,
    birthDatesComparator_day_tie_quirk gedcomW "I1" "I2" dateW1 dateW2
      1980 5 10 20 (by decide) (by decide) rfl rfl (by decide)
      rfl rfl (by decide) rfl rfl (by decide) (by decide) (by decide)⟩

/-- An id for which the comparator cannot obtain a usable birth year: it
does not resolve to an individual, or the individual has no usable date
(neither `date` nor `dateRange.from`), or the resolved date lacks a
year. -/
def lacksUsableYear (gedcom : JsonGedcomData) (id : String) : Prop :=
  lookupIndi gedcom id = none ∨ resolveDate gedcom id = none ∨
    ∃ d, resolveDate gedcom id = some d ∧ d.year = none

/-- C6: whenever either id does not resolve to an individual, or either
resolved individual has no usable birth date, or either resolved date
lacks a year, the comparator returns the ordinal string comparison of
the two ids: -1 when the first id is less, 1 when greater, 0 when
equal. -/
theorem birthDatesComparator_fallback (gedcom : JsonGedcomData)
    (id1 id2 : String)
    (h : lacksUsableYear gedcom id1 ∨ lacksUsableYear gedcom id2) :
    birthDatesComparator gedcom id1 id2 =
      (if id1 < id2 then (-1 : Int) else if id2 < id1 then 1 else 0) := by
  rw [← strcmp_eq_order id1 id2]
  unfold birthDatesComparator
  rcases h with h | h
  · rcases h with h | h | ⟨d, hd, hy⟩
    · simp [resolveDate_of_lookup_none _ _ h]
    · simp [h]
    · cases h2 : resolveDate gedcom id2 with
      | none => simp [hd, h2]
      | some d2 => simp [hd, h2, hy]
  · rcases h with h | h | ⟨d, hd, hy⟩
    · simp [resolveDate_of_lookup_none _ _ h]
    · simp [h]
    · cases h1 : resolveDate gedcom id1 with
      | none => simp [hd, h1]
      | some d1 =>
        cases hy1 : d1.year with
        | none => simp [hd, h1, hy1]
        | some y1 => simp [hd, h1, hy1, hy]

def gedcomEmpty : JsonGedcomData := ⟨[], []⟩

theorem birthDatesComparator_fallback_witness :
    (lacksUsableYear gedcomEmpty "I1" ∨ lacksUsableYear gedcomEmpty "I2") ∧
    birthDatesComparator gedcomEmpty "I1" "I2" =
      (if "I1" < "I2" then (-1 : Int) else if ("I2" : String) < "I1" then 1 else 0) :=
  ⟨Or.inl (Or.inl rfl),
    birthDatesComparator_fallback gedcomEmpty "I1" "I2" (Or.inl (Or.inl rfl))⟩

/-- Stable insertion of `x` into `l`: `x` goes before the first element
`y` with `cmp x y ≤ 0`.  Used to model the ECMAScript stable sort
(`Array.prototype.sort`): an element compares "not after" `y` exactly
when the comparator is nonpositive, and ties keep the original order. -/
def jsInsert (cmp : α → α → Int) (x : α) : List α → List α
  | [] => [x]
  | y :: ys => if cmp x y ≤ 0 then x :: y :: ys else y :: jsInsert cmp x ys

/-- Value-level model of the ECMAScript stable sort with a comparator
(stable insertion sort, inserting from the right so that ties keep the
original relative order). -/
def jsSort (cmp : α → α → Int) : List α → List α
  | [] => []
  | x :: xs => jsInsert cmp x (jsSort cmp xs)

/-- A list is sorted for a JavaScript comparator when every element
compares nonpositively against its successor. -/
def sortedByCmp (cmp : α → α → Int) (l : List α) : Prop :=
  l.Chain' (fun a b => cmp a b ≤ 0)

theorem jsInsert_of_head_le (cmp : α → α → Int) (x : α) (l : List α)
    (h : ∀ y, l.head? = some y → cmp x y ≤ 0) : jsInsert cmp x l = x :: l := by
  cases l with
  | nil => rfl
  | cons y ys => simp [jsInsert, h y rfl]

theorem jsSort_of_sorted (cmp : α → α → Int) (l : List α)
    (h : sortedByCmp cmp l) : jsSort cmp l = l := by
  induction l with
  | nil => rfl
  | cons x xs ih =>
    have hxs : sortedByCmp cmp xs := h.tail
    have hx : ∀ y, xs.head? = some y → cmp x y ≤ 0 := by
      intro y hy
      exact List.chain'_cons'.mp h |>.1 y hy
    simp only [jsSort, ih hxs]
    exact jsInsert_of_head_le cmp x xs hx

/-- `sortFamilyChildren` from the source, at the level of values:
a family without a `children` field is returned as is; otherwise the
result carries the children sorted by the comparator.  (The source's
aliasing behaviour — `Array.prototype.sort` mutating in place — is
modelled separately by `sortFamilyChildrenHeap`.) -/
def sortFamilyChildren (fam : JsonFam)
    (comparator : String → String → Int) : JsonFam :=
  match fam.children with
  | none => fam
  | some children => { fam with children := some (jsSort comparator children) }

/-- C7: sorting a family whose children sequence is already sorted by
the comparator built from the chart data yields a children sequence
identical element-for-element to the input's children sequence. -/
theorem sortFamilyChildren_idempotent (gedcom : JsonGedcomData) (fam : JsonFam)
    (h : ∀ l, fam.children = some l →
      sortedByCmp (birthDatesComparator gedcom) l) :
    (sortFamilyChildren fam (birthDatesComparator gedcom)).children
      = fam.children := by
  cases hc : fam.children with
  | none => simp [sortFamilyChildren, hc]
  | some l =>
    simp [sortFamilyChildren, hc, jsSort_of_sorted _ l (h l hc)]

def famW : JsonFam := ⟨"F1", some ["I1", "I2"]⟩

theorem sortFamilyChildren_idempotent_witness :
    (∀ l, famW.children = some l →
      sortedByCmp (birthDatesComparator gedcomEmpty) l) ∧
    (sortFamilyChildren famW (birthDatesComparator gedcomEmpty)).children
      = famW.children :=
  have h : ∀ l, famW.children = some l →
      sortedByCmp (birthDatesComparator gedcomEmpty) l := by
    intro l hl
    cases hl
    exact List.chain'_cons.mpr ⟨by decide, List.chain'_singleton _⟩
  ⟨h, sortFamilyChildren_idempotent gedcomEmpty famW h⟩

/-- `sortChildren` from the source: builds the comparator once and maps
`sortFamilyChildren` over the families, copying the chart data with the
new families sequence. -/
def sortChildren (gedcom : JsonGedcomData) : JsonGedcomData :=
  let comparator := birthDatesComparator gedcom
  { gedcom with
    fams := gedcom.fams.map (fun fam => sortFamilyChildren fam comparator) }

/-- C8: `sortChildren` rebuilds only the families sequence; the
individuals sequence of its output is exactly the individuals sequence
of its input. -/
theorem sortChildren_preserves_indis (gedcom : JsonGedcomData) :
    (sortChildren gedcom).indis = gedcom.indis := rfl

/-- A store of JavaScript array objects holding children id sequences;
a reference is an index into the store. -/
abbrev ChildStore := List (List String)

/-- A family whose `children` field is a reference to an array object in
the store (or absent), making JavaScript object identity explicit. -/
structure JsonFamRef where
  id : String
  childrenRef : Option Nat
deriving DecidableEq, Repr

/-- `sortFamilyChildren` from the source with JavaScript array-object
semantics made explicit: `fam.children.sort(comparator)` sorts the array
IN PLACE and returns the very same array object, so `newChildren`
aliases `fam.children`, and `Object.assign({}, fam, {children:
newChildren})` yields a family whose `children` is that same (now
reordered) array object. -/
def sortFamilyChildrenHeap (fam : JsonFamRef)
    (comparator : String → String → Int) (store : ChildStore) :
    JsonFamRef × ChildStore :=
  match fam.childrenRef with
  | none => (fam, store)
  | some r =>
    ({ fam with childrenRef := some r },
      store.set r (jsSort comparator (store.getD r [])))

def famC1 : JsonFamRef := ⟨"F1", some 0⟩

def storeC1 : ChildStore := [["I2", "I1"]]

/-- C1 (refuted; the code contradicts its own doc comment "Does not
modify the input objects"): at a concrete family with children
`["I2", "I1"]` and the comparator of empty chart data,
`sortFamilyChildren` returns a family whose children is the SAME array
object as the input family's children (no new sequence is allocated),
and the input's original children array has been reordered in place,
because `Array.prototype.sort` mutates and returns its receiver. -/
theorem sortFamilyChildrenHeap_mutates_input :
    (sortFamilyChildrenHeap famC1 (birthDatesComparator gedcomEmpty)
        storeC1).1.childrenRef = famC1.childrenRef
    ∧ (sortFamilyChildrenHeap famC1 (birthDatesComparator gedcomEmpty)
        storeC1).2 = [["I1", "I2"]]
    ∧ storeC1 = [["I2", "I1"]]
    ∧ (["I1", "I2"] : List String) ≠ ["I2", "I1"] := by
  decide

def IMAGE_EXTENSIONS : List String := [".jpg", ".png", ".gif"]

/-- JavaScript `toLowerCase`, character by character (the strings in
play are ASCII). -/
def jsToLower (s : String) : String := ⟨s.data.map Char.toLower⟩

/-- JavaScript `String.prototype.endsWith`. -/
def strEndsWith (s suffix : String) : Bool :=
  suffix.data.isSuffixOf s.data

/-- JavaScript `String.prototype.startsWith`. -/
def strStartsWith (s pre : String) : Bool :=
  pre.data.isPrefixOf s.data

/-- `isImageFile` from the source: the lower-cased name ends with a
known image extension. -/
def isImageFile (fileName : String) : Bool :=
  let lowerName := jsToLower fileName
  IMAGE_EXTENSIONS.any (fun ext => strEndsWith lowerName ext)

/-- The file name extracted by the source's regex match `[^/\\]*$`: the
longest suffix containing neither `/` nor `\` (the regex always matches,
possibly with the empty string). -/
def fileNameOf (url : String) : String :=
  ⟨(url.data.reverse.takeWhile (fun c => c != '/' && c != '\\')).reverse⟩

/-- The caller-supplied `Map<string, string>` from file name to override
URL, modelled as an association list with unique keys. -/
abbrev ImageMap := List (String × String)

/-- `Map.get` (and `Map.has`, via `isSome`). -/
def mapGet (m : ImageMap) (k : String) : Option String :=
  (m.find? (fun p => p.1 == k)).map Prod.snd

/-- `filterImage` from the source: an individual without images (absent
or empty list) is returned as is; otherwise the kept images are
accumulated in order, each either rewritten from the override map or
kept by the HTTP/extension test.  The source's `images.has(fileName)`
check followed by `images.get(fileName)!` is a single map lookup. -/
def filterImage (indi : JsonIndi) (images : ImageMap) : JsonIndi :=
  match indi.images with
  | none => indi
  | some imgs =>
    if imgs.length = 0 then indi
    else
      let newImages := imgs.foldl (fun acc image =>
        match mapGet images (fileNameOf image.url) with
        | some overrideUrl => acc ++ [⟨overrideUrl, image.title⟩]
        | none =>
          if strStartsWith image.url "http" && isImageFile image.url then
            acc ++ [image]
          else acc) []
      { indi with images := some newImages }

/-- The per-image rule exactly as C5 states it: an image whose file name
(last path segment after splitting on `/` or `\`) is a key of the
override mapping is kept with its url replaced by the override value and
its title preserved; any other image is kept unchanged iff its url
starts with the case-sensitive prefix "http" and its lower-cased url
ends with ".jpg", ".png" or ".gif"; all remaining images are dropped. -/
def imageRuleSpec (images : ImageMap) (image : JsonImage) : Option JsonImage :=
  match mapGet images (fileNameOf image.url) with
  | some overrideUrl => some ⟨overrideUrl, image.title⟩
  | none =>
    if strStartsWith image.url "http"
        && (strEndsWith (jsToLower image.url) ".jpg"
          || strEndsWith (jsToLower image.url) ".png"
          || strEndsWith (jsToLower image.url) ".gif") then
      some image
    else none

theorem isImageFile_eq (s : String) :
    isImageFile s
      = (strEndsWith (jsToLower s) ".jpg"
        || strEndsWith (jsToLower s) ".png"
        || strEndsWith (jsToLower s) ".gif") := by
  simp [isImageFile, IMAGE_EXTENSIONS, List.any, Bool.or_assoc]

theorem foldl_push_filterMap (f : α → Option β) (l : List α) (acc : List β) :
    l.foldl (fun acc x => acc ++ (f x).toList) acc = acc ++ l.filterMap f := by
  induction l generalizing acc with
  | nil => simp
  | cons x xs ih =>
    cases hf : f x <;>
      simp [List.foldl_cons, hf, ih, List.filterMap_cons]

/-- C5: for every individual with a non-empty images sequence and every
override mapping, `filterImage` produces exactly the in-order selective
rewrite described by `imageRuleSpec` (override keys rewritten and titles
preserved, other images kept iff the url passes the case-sensitive
"http" prefix test and the case-insensitive extension test, the rest
dropped, survivors in original relative order), leaving the other
fields of the individual unchanged. -/
theorem filterImage_spec (indi : JsonIndi) (images : ImageMap)
    (imgs : List JsonImage) (h : indi.images = some imgs) (hne : imgs ≠ []) :
    (filterImage indi images).images
        = some (imgs.filterMap (imageRuleSpec images))
    ∧ (filterImage indi images).id = indi.id
    ∧ (filterImage indi images).birth = indi.birth := by
  have hbody : (fun (acc : List JsonImage) (image : JsonImage) =>
      match mapGet images (fileNameOf image.url) with
      | some overrideUrl => acc ++ [(⟨overrideUrl, image.title⟩ : JsonImage)]
      | none =>
        if strStartsWith image.url "http" && isImageFile image.url then
          acc ++ [image]
        else acc)
      = (fun (acc : List JsonImage) (image : JsonImage) =>
        acc ++ (imageRuleSpec images image).toList) := by
    funext acc image
    simp only [imageRuleSpec, isImageFile_eq]
    cases mapGet images (fileNameOf image.url) with
    | some v => rfl
    | none =>
      cases hc : (strStartsWith image.url "http"
          && (strEndsWith (jsToLower image.url) ".jpg"
            || strEndsWith (jsToLower image.url) ".png"
            || strEndsWith (jsToLower image.url) ".gif")) <;> simp [hc]
  obtain ⟨iid, ibirth, iimgs⟩ := indi
  change iimgs = some imgs at h
  subst h
  have hlen : ¬imgs.length = 0 := by
    cases imgs with
    | nil => exact absurd rfl hne
    | cons a l => simp
  have hred : filterImage ⟨iid, ibirth, some imgs⟩ images
      = if imgs.length = 0 then ⟨iid, ibirth, some imgs⟩
        else ⟨iid, ibirth, some (imgs.foldl (fun acc image =>
          match mapGet images (fileNameOf image.url) with
          | some overrideUrl => acc ++ [⟨overrideUrl, image.title⟩]
          | none =>
            if strStartsWith image.url "http" && isImageFile image.url then
              acc ++ [image]
            else acc) [])⟩ := rfl
  rw [hred, if_neg hlen, hbody, foldl_push_filterMap]
  exact ⟨by simp, rfl, rfl⟩

def imgsW : List JsonImage :=
  [⟨"ftp://example.com/photos/photo.jpg", some "override me"⟩,
   ⟨"ftp://example.com/a.jpg", none⟩,
   ⟨"http://example.com/a.jpg", some "kept"⟩,
   ⟨"https://example.com/a.PNG", none⟩]

def indiW : JsonIndi := ⟨"I1", none, some imgsW⟩

def imageMapW : ImageMap := [("photo.jpg", "blob:uploaded-1")]

theorem filterImage_spec_witness :
    indiW.images = some imgsW ∧ imgsW ≠ [] ∧
    ((filterImage indiW imageMapW).images
        = some (imgsW.filterMap (imageRuleSpec imageMapW))
      ∧ (filterImage indiW imageMapW).id = indiW.id
      ∧ (filterImage indiW imageMapW).birth = indiW.birth) :=
  ⟨rfl, by decide, filterImage_spec indiW imageMapW imgsW rfl (by decide)⟩

/-- One node of the parsed GEDCOM tree, as produced by `parse-gedcom`:
`{pointer, tag, data, tree}`.  Absent pointer or data is the empty
string. -/
inductive GedcomEntry where
  | mk (pointer : String) (tag : String) (data : String)
      (tree : List GedcomEntry)

def GedcomEntry.pointer : GedcomEntry → String
  | ⟨p, _, _, _⟩ => p

def GedcomEntry.tag : GedcomEntry → String
  | ⟨_, t, _, _⟩ => t

def GedcomEntry.data : GedcomEntry → String
  | ⟨_, _, d, _⟩ => d

def GedcomEntry.tree : GedcomEntry → List GedcomEntry
  | ⟨_, _, _, t⟩ => t

/-- JavaScript `String.prototype.substring`: both indices are clamped to
`[0, length]` and swapped when the first exceeds the second. -/
def jsSubstring (s : String) (start finish : Int) : String :=
  let n : Int := s.length
  let a := max 0 (min start n)
  let b := max 0 (min finish n)
  ⟨(s.data.take (max a b).toNat).drop (min a b).toNat⟩

/-- `pointerToId` from the source:
`pointer.substring(1, pointer.length - 1)`, e.g. `'@I123@' -> 'I123'`. -/
def pointerToId (pointer : String) : String :=
  jsSubstring pointer 1 ((pointer.length : Int) - 1)

/-- The three identifier-keyed mappings built by `prepareGedcom`,
modelled as lookup functions (JavaScript object property assignment:
a later assignment to the same key overwrites the earlier one). -/
structure EntryMaps where
  indis : String → Option GedcomEntry
  fams : String → Option GedcomEntry
  other : String → Option GedcomEntry

def emptyEntryMap : String → Option GedcomEntry := fun _ => none

def mapInsert (m : String → Option GedcomEntry) (k : String)
    (e : GedcomEntry) : String → Option GedcomEntry :=
  fun x => if x = k then some e else m x

/-- The body of the `forEach` in `prepareGedcom`: an `INDI` entry is
indexed under `indis`, a `FAM` entry under `fams`, and any other entry
with a (truthy, i.e. non-empty) pointer under `other`. -/
def prepStep (acc : EntryMaps) (entry : GedcomEntry) : EntryMaps :=
  if entry.tag = "INDI" then
    { acc with indis := mapInsert acc.indis (pointerToId entry.pointer) entry }
  else if entry.tag = "FAM" then
    { acc with fams := mapInsert acc.fams (pointerToId entry.pointer) entry }
  else if entry.pointer ≠ "" then
    { acc with other := mapInsert acc.other (pointerToId entry.pointer) entry }
  else acc

/-- The result of `prepareGedcom`.  The source asserts the result of
`entries.find(...)` with `!`, so `head` is `undefined` at runtime when
no `HEAD` entry exists; it is therefore modelled as an `Option`. -/
structure GedcomData where
  head : Option GedcomEntry
  indis : String → Option GedcomEntry
  fams : String → Option GedcomEntry
  other : String → Option GedcomEntry

/-- `prepareGedcom` from the source: the first `HEAD` entry becomes
`head`, and one linear pass indexes the entries. -/
def prepareGedcom (entries : List GedcomEntry) : GedcomData :=
  let maps := entries.foldl prepStep ⟨emptyEntryMap, emptyEntryMap, emptyEntryMap⟩
  { head := entries.find? (fun entry => entry.tag == "HEAD")
    indis := maps.indis
    fams := maps.fams
    other := maps.other }

theorem prepStep_indis (acc : EntryMaps) (e : GedcomEntry) (id : String) :
    (prepStep acc e).indis id
      = if e.tag = "INDI" ∧ pointerToId e.pointer = id then some e
        else acc.indis id := by
  by_cases ht : e.tag = "INDI"
  · by_cases hp : pointerToId e.pointer = id
    · simp [prepStep, mapInsert, ht, hp]
    · simp [prepStep, mapInsert, ht, hp, Ne.symm hp]
  · by_cases hf : e.tag = "FAM" <;> by_cases hp : e.pointer = "" <;>
      simp [prepStep, ht, hf, hp]

theorem prepStep_fams (acc : EntryMaps) (e : GedcomEntry) (id : String) :
    (prepStep acc e).fams id
      = if e.tag = "FAM" ∧ pointerToId e.pointer = id then some e
        else acc.fams id := by
  by_cases ht : e.tag = "INDI"
  · have : ¬e.tag = "FAM" := by rw [ht]; decide
    simp [prepStep, ht, this]
  · by_cases hf : e.tag = "FAM"
    · by_cases hp : pointerToId e.pointer = id
      · simp [prepStep, mapInsert, ht, hf, hp]
      · simp [prepStep, mapInsert, ht, hf, hp, Ne.symm hp]
    · by_cases hp : e.pointer = "" <;> simp [prepStep, ht, hf, hp]

theorem prepStep_other (acc : EntryMaps) (e : GedcomEntry) (id : String) :
    (prepStep acc e).other id
      = if (¬e.tag = "INDI" ∧ ¬e.tag = "FAM" ∧ ¬e.pointer = "")
            ∧ pointerToId e.pointer = id then some e
        else acc.other id := by
  by_cases ht : e.tag = "INDI"
  · simp [prepStep, ht]
  · by_cases hf : e.tag = "FAM"
    · simp [prepStep, ht, hf]
    · by_cases hp : e.pointer = ""
      · simp [prepStep, ht, hf, hp]
      · by_cases hid : pointerToId e.pointer = id
        · simp [prepStep, mapInsert, ht, hf, hp, hid]
        · simp [prepStep, mapInsert, ht, hf, hp, hid, Ne.symm hid]

theorem foldr_prep_proj (proj : EntryMaps → String → Option GedcomEntry)
    (P : GedcomEntry → Prop) [DecidablePred P]
    (hstep : ∀ acc e id, proj (prepStep acc e) id
        = if P e ∧ pointerToId e.pointer = id then some e else proj acc id)
    (l : List GedcomEntry) (acc : EntryMaps) (id : String) :
    proj (l.foldr (fun e m => prepStep m e) acc) id
      = ((l.find? (fun e => decide (P e ∧ pointerToId e.pointer = id))).map
          some).getD (proj acc id) := by
  induction l with
  | nil => rfl
  | cons e rest ih =>
    rw [List.foldr_cons, hstep]
    by_cases hc : P e ∧ pointerToId e.pointer = id
    · rw [if_pos hc, List.find?_cons_of_pos _ (by simpa using hc)]
      rfl
    · rw [if_neg hc, List.find?_cons_of_neg _ (by simpa using hc), ih]

theorem prepareGedcom_maps (entries : List GedcomEntry) :
    entries.foldl prepStep ⟨emptyEntryMap, emptyEntryMap, emptyEntryMap⟩
      = entries.reverse.foldr (fun e m => prepStep m e)
          ⟨emptyEntryMap, emptyEntryMap, emptyEntryMap⟩ :=
  (List.foldr_reverse _ _ _).symm

theorem map_some_getD_none (o : Option α) : (o.map some).getD none = o := by
  cases o <;> rfl

/-- C4: for an entry sequence containing a `HEAD` entry, `prepareGedcom`
sets `head` to the first entry tagged `HEAD`, indexes each `INDI` entry
under `indis` by the bare identifier of its pointer, each `FAM` entry
under `fams`, and every other entry bearing a (non-empty) pointer under
`other`; on duplicate identifiers within a category the later entry in
the sequence overwrites the earlier one (the lookup finds the last
matching entry, i.e. the first in the reversed sequence), without
error. -/
theorem prepareGedcom_spec (entries : List GedcomEntry)
    (h : ∃ e ∈ entries, e.tag = "HEAD") :
    ((prepareGedcom entries).head = entries.find? (fun e => e.tag == "HEAD")
      ∧ (entries.find? (fun e => e.tag == "HEAD")).isSome)
    ∧ (∀ id, (prepareGedcom entries).indis id
        = entries.reverse.find?
            (fun e => decide (e.tag = "INDI" ∧ pointerToId e.pointer = id)))
    ∧ (∀ id, (prepareGedcom entries).fams id
        = entries.reverse.find?
            (fun e => decide (e.tag = "FAM" ∧ pointerToId e.pointer = id)))
    ∧ (∀ id, (prepareGedcom entries).other id
        = entries.reverse.find?
            (fun e => decide ((¬e.tag = "INDI" ∧ ¬e.tag = "FAM"
              ∧ ¬e.pointer = "") ∧ pointerToId e.pointer = id))) := by
  refine ⟨⟨rfl, ?_⟩, ?_, ?_, ?_⟩
  · obtain ⟨e, he, ht⟩ := h
    rw [List.find?_isSome]
    exact ⟨e, he, by simpa using ht⟩
  · intro id
    calc (prepareGedcom entries).indis id
        = (entries.reverse.foldr (fun e m => prepStep m e)
            ⟨emptyEntryMap, emptyEntryMap, emptyEntryMap⟩).indis id := by
          show (entries.foldl prepStep
            ⟨emptyEntryMap, emptyEntryMap, emptyEntryMap⟩).indis id = _
          rw [prepareGedcom_maps]
      _ = _ := by
          rw [foldr_prep_proj EntryMaps.indis (fun e => e.tag = "INDI")
            prepStep_indis]
          exact map_some_getD_none _
  · intro id
    calc (prepareGedcom entries).fams id
        = (entries.reverse.foldr (fun e m => prepStep m e)
            ⟨emptyEntryMap, emptyEntryMap, emptyEntryMap⟩).fams id := by
          show (entries.foldl prepStep
            ⟨emptyEntryMap, emptyEntryMap, emptyEntryMap⟩).fams id = _
          rw [prepareGedcom_maps]
      _ = _ := by
          rw [foldr_prep_proj EntryMaps.fams (fun e => e.tag = "FAM")
            prepStep_fams]
          exact map_some_getD_none _
  · intro id
    calc (prepareGedcom entries).other id
        = (entries.reverse.foldr (fun e m => prepStep m e)
            ⟨emptyEntryMap, emptyEntryMap, emptyEntryMap⟩).other id := by
          show (entries.foldl prepStep
            ⟨emptyEntryMap, emptyEntryMap, emptyEntryMap⟩).other id = _
          rw [prepareGedcom_maps]
      _ = _ := by
          rw [foldr_prep_proj EntryMaps.other
            (fun e => ¬e.tag = "INDI" ∧ ¬e.tag = "FAM" ∧ ¬e.pointer = "")
            prepStep_other]
          exact map_some_getD_none _

def entryHead : GedcomEntry := ⟨"", "HEAD", "", []⟩

def entryI1a : GedcomEntry := ⟨"@I1@", "INDI", "first", []⟩

def entryF1 : GedcomEntry := ⟨"@F1@", "FAM", "", []⟩

def entryI1b : GedcomEntry := ⟨"@I1@", "INDI", "second", []⟩

def entryN1 : GedcomEntry := ⟨"@N1@", "NOTE", "a note", []⟩

def entriesW : List GedcomEntry :=
  [entryHead, entryI1a, entryF1, entryI1b, entryN1]

theorem prepareGedcom_spec_witness :
    (∃ e ∈ entriesW, e.tag = "HEAD")
    ∧ (((prepareGedcom entriesW).head
          = entriesW.find? (fun e => e.tag == "HEAD")
        ∧ (entriesW.find? (fun e => e.tag == "HEAD")).isSome)
      ∧ (∀ id, (prepareGedcom entriesW).indis id
          = entriesW.reverse.find?
              (fun e => decide (e.tag = "INDI" ∧ pointerToId e.pointer = id)))
      ∧ (∀ id, (prepareGedcom entriesW).fams id
          = entriesW.reverse.find?
              (fun e => decide (e.tag = "FAM" ∧ pointerToId e.pointer = id)))
      ∧ (∀ id, (prepareGedcom entriesW).other id
          = entriesW.reverse.find?
              (fun e => decide ((¬e.tag = "INDI" ∧ ¬e.tag = "FAM"
                ∧ ¬e.pointer = "") ∧ pointerToId e.pointer = id)))) :=
  ⟨⟨entryHead, List.mem_cons_self _ _, rfl⟩,
    prepareGedcom_spec entriesW ⟨entryHead, List.mem_cons_self _ _, rfl⟩⟩

/-- `getSoftware` from the source: finds `SOUR` in the head entry's
sub-tree, then `NAME` in that entry's sub-tree, and returns its data;
`(name && name.data) || null` collapses an absent or empty data string
to `null` (the empty string is falsy). -/
def getSoftware (head : GedcomEntry) : Option String :=
  match head.tree.find? (fun entry => entry.tag == "SOUR") with
  | none => none
  | some sour =>
    match sour.tree.find? (fun entry => entry.tag == "NAME") with
    | none => none
    | some name => if name.data = "" then none else some name.data

/-- C9: `getSoftware` never returns the empty string: when the
`HEAD/SOUR/NAME` chain exists but the `NAME` entry's data is the empty
string (the representation of a missing data field), it returns the
absent value, exactly as when `SOUR` or `NAME` is missing altogether. -/
theorem getSoftware_never_empty (head : GedcomEntry) :
    getSoftware head ≠ some ""
    ∧ (∀ sour name,
        head.tree.find? (fun entry => entry.tag == "SOUR") = some sour →
        sour.tree.find? (fun entry => entry.tag == "NAME") = some name →
        name.data = "" → getSoftware head = none) := by
  constructor
  · intro hcontra
    unfold getSoftware at hcontra
    cases hs : head.tree.find? (fun entry => entry.tag == "SOUR") with
    | none => simp [hs] at hcontra
    | some sour =>
      cases hn : sour.tree.find? (fun entry => entry.tag == "NAME") with
      | none => simp [hs, hn] at hcontra
      | some name =>
        by_cases hd : name.data = ""
        · simp [hs, hn, hd] at hcontra
        · simp [hs, hn, hd] at hcontra
  · intro sour name hs hn hd
    simp [getSoftware, hs, hn, hd]

def entryName : GedcomEntry := ⟨"", "NAME", "", []⟩

def entrySour : GedcomEntry := ⟨"", "SOUR", "", [entryName]⟩

def entryHeadW : GedcomEntry := ⟨"", "HEAD", "", [entrySour]⟩

theorem getSoftware_never_empty_witness :
    getSoftware entryHeadW ≠ some "" ∧ getSoftware entryHeadW = none :=
  ⟨(getSoftware_never_empty entryHeadW).1,
    (getSoftware_never_empty entryHeadW).2 entrySour entryName rfl rfl rfl⟩

/-- `filterImages` from the source: maps `filterImage` over the
individuals, copying the chart data with the new individuals
sequence. -/
def filterImages (gedcom : JsonGedcomData) (images : ImageMap) :
    JsonGedcomData :=
  { gedcom with
    indis := gedcom.indis.map (fun indi => filterImage indi images) }

/-- The combined result of a conversion. -/
structure TopolaData where
  chartData : JsonGedcomData
  gedcom : GedcomData

/-- The external converter's raw output as the validation in
`convertGedcom` sees it: the `indis` and `fams` sequences may each be
missing.  The converter may also return no object at all (the `!json`
check), modelled by passing `none` for the whole value. -/
structure RawJsonGedcomData where
  indis : Option (List JsonIndi)
  fams : Option (List JsonFam)

/-- `convertGedcom` from the source, with the outputs of the external
collaborators (`parseGedcom`, `gedcomEntriesToJson`) passed as
parameters: when the converter output is missing, or its `indis` or
`fams` sequence is missing or empty, it throws
`Error('Failed to read GEDCOM file')`; otherwise it returns the sorted
and image-filtered chart data combined with the entry index. -/
def convertGedcom (entries : List GedcomEntry)
    (json : Option RawJsonGedcomData) (images : ImageMap) :
    Except String TopolaData :=
  match json with
  | none => Except.error "Failed to read GEDCOM file"
  | some j =>
    match j.indis, j.fams with
    | some indis, some fams =>
      if indis.length = 0 ∨ fams.length = 0 then
        Except.error "Failed to read GEDCOM file"
      else
        Except.ok
          { chartData := filterImages (sortChildren ⟨indis, fams⟩) images
            gedcom := prepareGedcom entries }
    | _, _ => Except.error "Failed to read GEDCOM file"

/-- The validation condition of `convertGedcom`: the converter output is
missing, or has a missing or empty individuals sequence, or a missing or
empty families sequence. -/
def invalidChartJson : Option RawJsonGedcomData → Prop
  | none => True
  | some j =>
    j.indis = none ∨ j.indis = some [] ∨ j.fams = none ∨ j.fams = some []

/-- C2: `convertGedcom` raises the single typed error with exactly the
fixed message "Failed to read GEDCOM file" if and only if the external
converter's output has a missing or empty individuals sequence or a
missing or empty families sequence (or is missing entirely); every other
error message is impossible, and otherwise it returns a fully formed
conversion result (no partial-result mode). -/
theorem convertGedcom_spec (entries : List GedcomEntry)
    (json : Option RawJsonGedcomData) (images : ImageMap) :
    (convertGedcom entries json images
        = Except.error "Failed to read GEDCOM file" ↔ invalidChartJson json)
    ∧ (∀ msg, convertGedcom entries json images = Except.error msg →
        msg = "Failed to read GEDCOM file")
    ∧ (¬invalidChartJson json →
        ∃ result, convertGedcom entries json images = Except.ok result) := by
  cases json with
  | none => simp [convertGedcom, invalidChartJson]
  | some j =>
    obtain ⟨jindis, jfams⟩ := j
    cases jindis with
    | none => simp [convertGedcom, invalidChartJson]
    | some indis =>
      cases jfams with
      | none => simp [convertGedcom, invalidChartJson]
      | some fams =>
        cases indis with
        | nil => simp [convertGedcom, invalidChartJson]
        | cons i is =>
          cases fams with
          | nil => simp [convertGedcom, invalidChartJson]
          | cons f fs =>
            simp [convertGedcom, invalidChartJson]

def rawJsonW : RawJsonGedcomData :=
  ⟨some [⟨"I1", none, none⟩], some [⟨"F1", some ["I1"]⟩]⟩

theorem convertGedcom_spec_witness :
    convertGedcom [] none [] = Except.error "Failed to read GEDCOM file"
    ∧ (∃ result,
        convertGedcom entriesW (some rawJsonW) [] = Except.ok result) :=
  ⟨(convertGedcom_spec [] none []).1.mpr trivial,
    (convertGedcom_spec entriesW (some rawJsonW) []).2.2 (by
      intro hbad
      rcases hbad with h | h | h | h <;> simp [rawJsonW] at h)⟩
